import Mathlib

/-!
Verification of the MT5 bridge server (`server/bridge.py`, `server/api.py`).

The development has two parts:

* a JSON value model together with the frame codec (4-byte big-endian length
  prefix + JSON body) used on the wire, and
* a state machine for `MT5Bridge`, embedded at the granularity of the atomic
  sections between `await` points of the Python coroutines.
-/

namespace Mt5Bridge

/-! ## JSON values

Modelled from the spec: the Python `json` module used by `bridge.py`
(`json.dumps` / `json.loads`) is library code, not part of this repository.
The spec describes the body as "the UTF-8 JSON-serialized envelope body".
`json.dumps` is modelled with its default options (`ensure_ascii=True`,
separators `", "` and `": "`); numbers are modelled as integers (the
envelopes of the data model carry strings, integers, objects, arrays,
booleans and null). -/

inductive Json where
  | null : Json
  | bool (b : Bool) : Json
  | num (n : Int) : Json
  | str (s : List Char) : Json
  | arr (elems : List Json) : Json
  | obj (fields : List (List Char × Json)) : Json
deriving Repr

/-- Lowercase hexadecimal digit, as produced by Python's `\uXXXX` escapes. -/
def hexDigitChar (n : Nat) : Char :=
  if n < 10 then Char.ofNat (48 + n) else Char.ofNat (87 + n)

/-- Four lowercase hex digits of `n < 0x10000`, most significant first. -/
def hex4 (n : Nat) : List Char :=
  [hexDigitChar (n / 4096 % 16), hexDigitChar (n / 256 % 16),
   hexDigitChar (n / 16 % 16), hexDigitChar (n % 16)]

/-- Escaping of one character, following `json.dumps` with `ensure_ascii=True`:
printable ASCII other than `"` and `\` is kept, the two-character short
escapes are used where Python uses them, every other character becomes
`\uXXXX` (a surrogate pair for characters beyond the basic plane). -/
def escapeChar (c : Char) : List Char :=
  if c = '"' then ['\\', '"']
  else if c = '\\' then ['\\', '\\']
  else if c.toNat = 8 then ['\\', 'b']
  else if c.toNat = 9 then ['\\', 't']
  else if c.toNat = 10 then ['\\', 'n']
  else if c.toNat = 12 then ['\\', 'f']
  else if c.toNat = 13 then ['\\', 'r']
  else if 32 ≤ c.toNat ∧ c.toNat ≤ 126 then [c]
  else if c.toNat < 65536 then '\\' :: 'u' :: hex4 c.toNat
  else
    let v := c.toNat - 65536
    ('\\' :: 'u' :: hex4 (55296 + v / 1024)) ++ ('\\' :: 'u' :: hex4 (56320 + v % 1024))

/-- Serialization of a JSON string, quotes included. -/
def serString (s : List Char) : List Char :=
  '"' :: s.flatMap escapeChar ++ ['"']

/-- Decimal digits of `n`, most significant first; `fuel` bounds the
recursion and any `fuel > n` is enough. -/
def natDigitsAux : Nat → Nat → List Char
  | 0, _ => []
  | fuel + 1, n =>
    if n < 10 then [Char.ofNat (48 + n)]
    else natDigitsAux fuel (n / 10) ++ [Char.ofNat (48 + n % 10)]

/-- Decimal digits of a natural number, most significant first. -/
def natDigits (n : Nat) : List Char := natDigitsAux (n + 1) n

/-- Serialization of an integer, as `json.dumps` prints Python ints. -/
def serInt (i : Int) : List Char :=
  if i < 0 then '-' :: natDigits i.natAbs else natDigits i.natAbs

mutual

/-- JSON serialization of a value, following `json.dumps` defaults
(item separator `", "`, key separator `": "`, no extra whitespace). -/
def serJson : Json → List Char
  | .num n => serInt n
  | .str s => serString s
  | .bool b => if b then ['t', 'r', 'u', 'e'] else ['f', 'a', 'l', 's', 'e']
  | .null => ['n', 'u', 'l', 'l']
  | .arr l => '[' :: serElems l ++ [']']
  | .obj l => '{' :: serFields l ++ ['}']

/-- Array elements, separated by `", "`. -/
def serElems : List Json → List Char
  | [] => []
  | [x] => serJson x
  | x :: y :: xs => serJson x ++ ',' :: ' ' :: serElems (y :: xs)

/-- Object members, `"key": value` separated by `", "`. -/
def serFields : List (List Char × Json) → List Char
  | [] => []
  | [(k, v)] => serString k ++ ':' :: ' ' :: serJson v
  | (k, v) :: f :: xs => serString k ++ ':' :: ' ' :: serJson v ++ ',' :: ' ' :: serFields (f :: xs)

end

/-! ### JSON parsing (model of `json.loads`)

The parser is fuel-indexed on the value structure; string and number
scanning recurse structurally on the input.  It accepts exactly the
documents relevant here (ints rather than arbitrary JSON numbers, as in
the serializer model above). -/

/-- JSON insignificant whitespace: space, tab, line feed, carriage return. -/
def isWsChar (c : Char) : Bool :=
  c = ' ' || c.toNat = 9 || c.toNat = 10 || c.toNat = 13

/-- Drop leading insignificant whitespace. -/
def skipWs : List Char → List Char
  | c :: cs => if isWsChar c then skipWs cs else c :: cs
  | [] => []

/-- ASCII decimal digit test. -/
def isDigitChar (c : Char) : Bool := 48 ≤ c.toNat && c.toNat ≤ 57

/-- Value of one hexadecimal digit, either case. -/
def hexVal (c : Char) : Option Nat :=
  if 48 ≤ c.toNat && c.toNat ≤ 57 then some (c.toNat - 48)
  else if 97 ≤ c.toNat && c.toNat ≤ 102 then some (c.toNat - 87)
  else if 65 ≤ c.toNat && c.toNat ≤ 70 then some (c.toNat - 55)
  else none

/-- Value of four hexadecimal digits, most significant first. -/
def hexVal4 (a b c d : Char) : Option Nat :=
  match hexVal a, hexVal b, hexVal c, hexVal d with
  | some x, some y, some z, some w => some (((x * 16 + y) * 16 + z) * 16 + w)
  | _, _, _, _ => none

/-- The character denoted by a two-character escape `\e`, when `e` is one of
the eight short escapes of JSON. -/
def unescapeShort (e : Char) : Option Char :=
  if e = '"' then some '"'
  else if e = '\\' then some '\\'
  else if e = '/' then some '/'
  else if e = 'b' then some (Char.ofNat 8)
  else if e = 'f' then some (Char.ofNat 12)
  else if e = 'n' then some (Char.ofNat 10)
  else if e = 'r' then some (Char.ofNat 13)
  else if e = 't' then some (Char.ofNat 9)
  else none

/-- Scan a JSON string body up to and including the closing quote
(the opening quote has been consumed).  `\uXXXX` escapes are decoded,
combining a high/low surrogate pair into one character as `json.loads`
does. -/
def parseStrAux : Nat → List Char → Option (List Char × List Char)
  | 0, _ => none
  | fuel + 1, cs =>
    match cs with
    | [] => none
    | c0 :: rest =>
      if c0 = '"' then some ([], rest)
      else if c0 = '\\' then
        match rest with
        | [] => none
        | e :: rest2 =>
          if e = 'u' then
            match rest2 with
            | a :: b :: c :: d :: rest3 =>
              match hexVal4 a b c d with
              | none => none
              | some h =>
                if 55296 ≤ h && h ≤ 56319 then
                  match rest3 with
                  | e1 :: e2 :: a2 :: b2 :: c2 :: d2 :: rest5 =>
                    if e1 = '\\' && e2 = 'u' then
                      match hexVal4 a2 b2 c2 d2 with
                      | some l =>
                        if 56320 ≤ l && l ≤ 57343 then
                          (parseStrAux fuel rest5).map
                            (fun p =>
                              (Char.ofNat (65536 + (h - 55296) * 1024 + (l - 56320)) :: p.1,
                               p.2))
                        else (parseStrAux fuel rest3).map (fun p => (Char.ofNat h :: p.1, p.2))
                      | none => (parseStrAux fuel rest3).map (fun p => (Char.ofNat h :: p.1, p.2))
                    else (parseStrAux fuel rest3).map (fun p => (Char.ofNat h :: p.1, p.2))
                  | _ => (parseStrAux fuel rest3).map (fun p => (Char.ofNat h :: p.1, p.2))
                else (parseStrAux fuel rest3).map (fun p => (Char.ofNat h :: p.1, p.2))
            | _ => none
          else
            match unescapeShort e with
            | some c1 => (parseStrAux fuel rest2).map (fun p => (c1 :: p.1, p.2))
            | none => none
      else (parseStrAux fuel rest).map (fun p => (c0 :: p.1, p.2))

/-- Scan a JSON string body, with fuel ample for the input. -/
def parseStringBody (cs : List Char) : Option (List Char × List Char) :=
  parseStrAux (cs.length + 1) cs

/-- Scan a maximal run of decimal digits, accumulating their value. -/
def takeDigits : List Char → Nat → Nat × List Char
  | c :: cs, acc =>
    if isDigitChar c then takeDigits cs (acc * 10 + (c.toNat - 48)) else (acc, c :: cs)
  | [], acc => (acc, [])

/-- Parse an integer literal: an optional minus sign and at least one digit. -/
def parseNumber (cs : List Char) : Option (Int × List Char) :=
  match cs with
  | [] => none
  | c :: rest =>
    if c = '-' then
      match rest with
      | [] => none
      | c2 :: _ =>
        if isDigitChar c2 then
          let p := takeDigits rest 0
          some (-(p.1 : Int), p.2)
        else none
    else if isDigitChar c then
      let p := takeDigits cs 0
      some ((p.1 : Int), p.2)
    else none

mutual

/-- Parse one JSON value from the input, returning it with the unconsumed
remainder.  `fuel` bounds the recursion into nested values. -/
def parseValue : Nat → List Char → Option (Json × List Char)
  | 0, _ => none
  | fuel + 1, input =>
    match skipWs input with
    | [] => none
    | c :: cs =>
      if c = 'n' then
        match cs with
        | 'u' :: 'l' :: 'l' :: rest => some (.null, rest)
        | _ => none
      else if c = 't' then
        match cs with
        | 'r' :: 'u' :: 'e' :: rest => some (.bool true, rest)
        | _ => none
      else if c = 'f' then
        match cs with
        | 'a' :: 'l' :: 's' :: 'e' :: rest => some (.bool false, rest)
        | _ => none
      else if c = '"' then
        (parseStringBody cs).map (fun p => (.str p.1, p.2))
      else if c = '[' then
        match skipWs cs with
        | ']' :: rest => some (.arr [], rest)
        | cs2 => (parseElems fuel cs2).map (fun p => (.arr p.1, p.2))
      else if c = '{' then
        match skipWs cs with
        | '}' :: rest => some (.obj [], rest)
        | cs2 => (parseFields fuel cs2).map (fun p => (.obj p.1, p.2))
      else
        (parseNumber (c :: cs)).map (fun p => (.num p.1, p.2))

/-- Parse the elements of a non-empty array, up to and including `]`. -/
def parseElems : Nat → List Char → Option (List Json × List Char)
  | 0, _ => none
  | fuel + 1, input =>
    match parseValue fuel input with
    | none => none
    | some (v, r) =>
      match skipWs r with
      | ']' :: r2 => some ([v], r2)
      | ',' :: r2 => (parseElems fuel (skipWs r2)).map (fun p => (v :: p.1, p.2))
      | _ => none

/-- Parse the members of a non-empty object, up to and including `}`. -/
def parseFields : Nat → List Char → Option (List (List Char × Json) × List Char)
  | 0, _ => none
  | fuel + 1, input =>
    match skipWs input with
    | '"' :: cs =>
      match parseStringBody cs with
      | none => none
      | some (k, r) =>
        match skipWs r with
        | ':' :: r2 =>
          match parseValue fuel r2 with
          | none => none
          | some (v, r3) =>
            match skipWs r3 with
            | '}' :: r4 => some ([(k, v)], r4)
            | ',' :: r4 => (parseFields fuel (skipWs r4)).map (fun p => ((k, v) :: p.1, p.2))
            | _ => none
        | _ => none
    | _ => none

end

/-! ### Frame codec

`send_command` builds `struct.pack(">I", len(payload)) + payload`
(bridge.py lines 152-157); the read loop reads a 4-byte header, applies the
1 MB sanity limit, reads exactly that many body bytes and parses them as
UTF-8 JSON (bridge.py lines 96-107). -/

/-- The read loop's sanity limit on a declared frame length (bridge.py line 101). -/
def maxFrameLen : Nat := 1000000

/-- Model of `struct.pack(">I", n)`: four bytes, big endian.  (For `n` below
2^32, which `struct.pack` requires, this is exact.) -/
def pack_be32 (n : Nat) : List Nat :=
  [n / 16777216 % 256, n / 65536 % 256, n / 256 % 256, n % 256]

/-- Model of `struct.unpack(">I", header)` on the first four bytes. -/
def unpack_be32 : List Nat → Option (Nat × List Nat)
  | b0 :: b1 :: b2 :: b3 :: rest => some (((b0 * 256 + b1) * 256 + b2) * 256 + b3, rest)
  | _ => none

/-- Byte sequence of the serialized envelope.  `json.dumps` with its default
`ensure_ascii=True` emits ASCII only, on which UTF-8 encoding is the identity
on code points. -/
def jsonBody (j : Json) : List Nat := (serJson j).map Char.toNat

/-- `encode`: the length-prefixed frame `send_command` writes for a payload
serializing `j` (bridge.py lines 152-157). -/
def encode (j : Json) : List Nat := pack_be32 (jsonBody j).length ++ jsonBody j

/-- ASCII fragment of UTF-8 decoding; this covers everything `encode`
produces. -/
def decodeAscii (bs : List Nat) : Option (List Char) :=
  if bs.all (fun b => b < 128) then some (bs.map Char.ofNat) else none

/-- `decode`: read the 4-byte header, apply the read loop's sanity limit,
take exactly the declared number of body bytes, and parse them as one JSON
document as `json.loads(data.decode("utf-8"))` does (bridge.py lines
96-107). -/
def decode (bs : List Nat) : Option Json :=
  match unpack_be32 bs with
  | none => none
  | some (n, rest) =>
    if n > maxFrameLen then none
    else if rest.length < n then none
    else
      match decodeAscii (rest.take n) with
      | none => none
      | some chars =>
        match parseValue (chars.length + 1) chars with
        | some (j, r) => if skipWs r = [] then some j else none
        | none => none

/-! ## Bridge state machine

`MT5Bridge` runs on one asyncio event loop: code between two `await`
points executes atomically.  The model's transition functions below are
those atomic sections.  Where a step of the Python code spans an await
(`stop` and `_handle_connection` awaiting `wait_closed` after
cancelling the read task), the model fixes the interleaving that
asyncio's FIFO ready queue produces: `Task.cancel()` schedules the read
task to resume with `CancelledError`, so its `finally:` block (which
contains no await) runs to completion while the canceller is suspended
in `wait_closed`, before the canceller's next line. -/

/-- Python exception raised or delivered by the bridge, identified by its
type and message (bridge.py lines 64, 131, 139, 165); exceptions from
serialization or the socket write, re-raised at line 168, appear as
`writeFailed`. -/
inductive BridgeExc where
  | eaNotConnected
  | eaDisconnected
  | bridgeShuttingDown
  | commandTimedOut
  | writeFailed
deriving DecidableEq, Repr

/-- The spec's error taxonomy (§7). -/
inductive SpecError where
  | notConnected
  | timeout
  | disconnected
  | protocol
  | remote
deriving DecidableEq, Repr

/-- Where each exception the bridge delivers falls in the spec's taxonomy:
ConnectionError("EA not connected") is NotConnected, TimeoutError is
Timeout, and both ConnectionError("EA disconnected") and
ConnectionError("Bridge shutting down") are the Disconnected/shutdown
error.  A generic write failure is outside the taxonomy.  No exception the
bridge ever sets on a caller's future is a Protocol error. -/
def classify : BridgeExc → Option SpecError
  | .eaNotConnected => some .notConnected
  | .commandTimedOut => some .timeout
  | .eaDisconnected => some .disconnected
  | .bridgeShuttingDown => some .disconnected
  | .writeFailed => none

/-- A response envelope as the read loop sees it after JSON parsing:
`msg.get("id")` (`none` when the key is absent or its value is falsy, e.g.
an empty string), the `error` field, and the `data` field.  Request-id
tokens are modelled as naturals. -/
structure RespMsg where
  reqId : Option Nat
  error : Option String := none
  data : Option Json := none

/-- The state of one `asyncio.Future` result slot. -/
inductive Slot where
  | waiting
  | value (m : RespMsg)
  | exc (e : BridgeExc)
  | cancelled

/-- The mutable state of an `MT5Bridge` instance (attributes of
`__init__`, bridge.py lines 20-30), plus the identity bookkeeping the
model needs: session identities and request ids are drawn from counters
(the code draws sessions from object identity, and request ids from
`uuid.uuid4()`, a collision-resistant token source — spec §9).  `futures`
records every result slot ever created, keyed by its request id, whether
or not its id is still in the pending table. -/
structure BridgeState where
  serverBound : Bool
  connected : Bool
  hasWriter : Bool
  currentSession : Option Nat
  readTaskAlive : Bool
  nextSession : Nat
  nextReq : Nat
  pending : List Nat
  futures : Nat → Option Slot
  lastSeen : Option Nat

/-- The state set up by `__init__` (bridge.py lines 20-30). -/
def initState : BridgeState :=
  { serverBound := false, connected := false, hasWriter := false,
    currentSession := none, readTaskAlive := false, nextSession := 0,
    nextReq := 0, pending := [], futures := fun _ => none, lastSeen := none }

/-- `fut.set_exception(e)` on every not-yet-done future whose id is in the
given pending keys (the loops at bridge.py lines 62-64 and 129-131). -/
def failAll (pend : List Nat) (f : Nat → Option Slot) (e : BridgeExc) : Nat → Option Slot :=
  fun i =>
    match f i with
    | some .waiting => if pend.contains i then some (.exc e) else f i
    | _ => f i

/-- The `finally:` block of `_read_loop` (bridge.py lines 126-132): mark
disconnected, fail every pending future with ConnectionError("EA
disconnected"), clear the table.  It runs whenever the loop exits, be it
peer EOF, task cancellation, an oversized frame, or a decode error. -/
def readLoopFinalizer (s : BridgeState) : BridgeState :=
  { s with connected := false,
           futures := failAll s.pending s.futures .eaDisconnected,
           pending := [],
           readTaskAlive := false }

/-- `stop()` (bridge.py lines 47-65): cancel the read task, close the
writer and the server, mark disconnected, fail whatever is still pending
with ConnectionError("Bridge shutting down") and clear the table.  When a
read task is alive its cancelled `finally:` block runs during the
`wait_closed` awaits, before the tail of `stop` — so it is that block that
drains the table first. -/
def stop (s : BridgeState) : BridgeState :=
  let s1 := if s.readTaskAlive then readLoopFinalizer s else s
  { s1 with serverBound := false,
            connected := false,
            futures := failAll s1.pending s1.futures .bridgeShuttingDown,
            pending := [] }

/-- `_handle_connection` (bridge.py lines 67-91).  A previous connection is
displaced first: its read task is cancelled and the old writer closed, and
while the handler is suspended in `wait_closed` the cancelled read task's
`finally:` block runs to completion.  Only then does the handler install
the new connection: store the reader and writer, set `_connected`, stamp
`_last_seen`, and start the new read loop. -/
def handle_connection (now : Nat) (s : BridgeState) : BridgeState :=
  let s1 := if s.hasWriter && s.readTaskAlive then readLoopFinalizer s else s
  { s1 with hasWriter := true,
            connected := true,
            currentSession := some s.nextSession,
            nextSession := s.nextSession + 1,
            readTaskAlive := true,
            lastSeen := some now }

/-- Routing of one decoded message (bridge.py lines 109-118): stamp
`_last_seen`; when `msg.get("id")` is truthy and in the pending table, pop
the entry and resolve its future (only if the future is not already done);
otherwise drop the message. -/
def route (now : Nat) (s : BridgeState) (m : RespMsg) : BridgeState :=
  let s0 := { s with lastSeen := some now }
  match m.reqId with
  | some i =>
    if s0.pending.contains i then
      { s0 with
        pending := s0.pending.filter (fun j => j != i),
        futures := fun j =>
          if j = i then
            match s0.futures i with
            | some .waiting => some (.value m)
            | o => o
          else s0.futures j }
    else s0
  | none => s0

/-- Why one pass of the `while True:` body of `_read_loop` ended. -/
inductive IterOutcome where
  | routed (m : RespMsg)
  | oversized
  | badBody

/-- One pass of `_read_loop`'s body (bridge.py lines 96-118) on a frame
whose header declares `declaredLen` body bytes.  `body` is the message the
body parses to once read (`none` models a `json.loads` failure).  When the
declared length exceeds the limit the loop breaks before reading the body,
and breaking out of the loop runs the `finally:` block; a decode failure
likewise ends the loop through `finally:`.  The third component reports
whether the body bytes were read from the stream. -/
def read_iteration (now : Nat) (s : BridgeState) (declaredLen : Nat)
    (body : Option RespMsg) : BridgeState × IterOutcome × Bool :=
  if declaredLen > maxFrameLen then (readLoopFinalizer s, .oversized, false)
  else
    match body with
    | some m => (route now s m, .routed m, true)
    | none => (readLoopFinalizer s, .badBody, true)

/-- The peer closing the connection: `readexactly` raises
IncompleteReadError, the loop ends, and `finally:` runs (bridge.py lines
120-132). -/
def read_eof (s : BridgeState) : BridgeState := readLoopFinalizer s

/-- Result of a completed `send_command` call: the response envelope
(line 161 returns the whole message) or a raised exception. -/
inductive SendResult where
  | ok (m : RespMsg)
  | raised (e : BridgeExc)

/-- Outcome of the first phase of `send_command`. -/
inductive SendStart where
  | failed (e : BridgeExc) (s : BridgeState)
  | started (reqId : Nat) (s : BridgeState)

/-- The first phase of `send_command` (bridge.py lines 134-158): the
connectivity check, id generation, future creation and registration,
serialization and the locked socket write.  `writeOk` abstracts whether
`json.dumps`, `write` and `drain` succeed; on their failure the
`except Exception` arm (lines 166-168) pops the entry and re-raises. -/
def send_begin (s : BridgeState) (writeOk : Bool) : SendStart :=
  if !s.connected || !s.hasWriter then .failed .eaNotConnected s
  else
    let i := s.nextReq
    let s1 := { s with
      nextReq := i + 1,
      pending := s.pending ++ [i],
      futures := fun j => if j = i then some .waiting else s.futures j }
    if writeOk then .started i s1
    else .failed .writeFailed { s1 with pending := s1.pending.filter (fun j => j != i) }

/-- The timeout arm of `send_command` (bridge.py lines 160-165):
`asyncio.wait_for` cancels the still-unresolved future, the handler pops
the entry, and the call raises TimeoutError. -/
def send_timeout (s : BridgeState) (i : Nat) : BridgeState × SendResult :=
  ({ s with
      pending := s.pending.filter (fun j => j != i),
      futures := fun j =>
        if j = i then
          match s.futures i with
          | some .waiting => some .cancelled
          | o => o
        else s.futures j },
   .raised .commandTimedOut)

/-- The caller resuming once its future is done (bridge.py lines 160-168):
a result is returned as-is; an exception set on the future propagates
through the `except Exception` arm, which pops the entry (already absent,
`pop` with a default) and re-raises.  `none` means the future is not done
and the caller keeps waiting. -/
def send_finish (s : BridgeState) (i : Nat) : BridgeState × Option SendResult :=
  match s.futures i with
  | some (.value m) => (s, some (.ok m))
  | some (.exc e) =>
    ({ s with pending := s.pending.filter (fun j => j != i) }, some (.raised e))
  | _ => (s, none)

/-- What `start()` produces. -/
inductive StartResult where
  | ok (s : BridgeState)
  | addrInUse

/-- Modelled from the spec: `start()` (bridge.py lines 40-45) only calls
`asyncio.start_server` on the bridge's fixed host and port.  The bind
itself happens inside asyncio and the operating system, which are not part
of this repository; per the spec (§4.4) a second `start()` without an
intervening `stop()` fails ("AlreadyStarted") — concretely, the OSError
from binding the port the first listener still holds. -/
def start (s : BridgeState) : StartResult :=
  if s.serverBound then .addrInUse
  else .ok { s with serverBound := true }

/-- What `_cmd` in api.py (lines 53-63) yields to an HTTP route handler:
the envelope, an HTTPException with status and detail, or an exception
outside its handlers, propagated. -/
inductive CmdResult where
  | ok (m : RespMsg)
  | http (status : Nat) (detail : String)
  | propagated (e : BridgeExc)

/-- Python truthiness of `resp.get("error")`: the key is present and holds
a non-empty string. -/
def truthyErr (m : RespMsg) : Bool :=
  match m.error with
  | some msg => !msg.isEmpty
  | none => false

/-- `_cmd` (api.py lines 53-63) applied to the outcome of
`bridge.send_command`: a truthy `error` field becomes HTTP 400 carrying
that error (the spec's Remote error); ConnectionError becomes 503 and
TimeoutError 504; any other exception propagates. -/
def cmd : SendResult → CmdResult
  | .ok m => if truthyErr m then .http 400 (m.error.getD "") else .ok m
  | .raised .commandTimedOut => .http 504 "EA command timed out"
  | .raised .eaNotConnected => .http 503 "EA not connected to MT5"
  | .raised .eaDisconnected => .http 503 "EA not connected to MT5"
  | .raised .bridgeShuttingDown => .http 503 "EA not connected to MT5"
  | .raised .writeFailed => .propagated .writeFailed

/-- `resp.get("data", default)`, as every route handler in api.py applies
it to the envelope `_cmd` returned. -/
def dataOf (m : RespMsg) (dflt : Json) : Json := m.data.getD dflt

/-- The slot registered for request id `i`, as recorded in `futures`. -/
def lookupSlot (s : BridgeState) (i : Nat) : Option Slot := s.futures i

/-- `k` successive `send_command` registrations with successful writes (the
atomic id-generation-and-registration section of each call runs without
interleaving on the event loop), returning the allocated ids in order. -/
def sendRun : Nat → BridgeState → List Nat × BridgeState
  | 0, s => ([], s)
  | k + 1, s =>
    match send_begin s true with
    | .started i s1 =>
      let p := sendRun k s1
      (i :: p.1, p.2)
    | .failed _ s1 => ([], s1)

/-! ## Size measures and parsing-context predicates (proof machinery) -/

mutual

/-- Structural size of a JSON value, dominating the parser fuel it needs. -/
def sizeJ : Json → Nat
  | .arr l => sizeL l + 1
  | .obj l => sizeF l + 1
  | _ => 1

/-- Structural size of a list of JSON values. -/
def sizeL : List Json → Nat
  | [] => 0
  | x :: xs => sizeJ x + sizeL xs + 1

/-- Structural size of a list of JSON object members. -/
def sizeF : List (List Char × Json) → Nat
  | [] => 0
  | kv :: xs => sizeJ kv.2 + sizeF xs + 1

end

/-- Contexts that can legitimately follow a serialized value: end of input
or a structural delimiter.  (What matters is that no decimal digit follows,
so a serialized number is not extended.) -/
def isDelim : List Char → Bool
  | [] => true
  | c :: _ => c = ',' || c = ']' || c = '}'

/-! ## Concrete states for closed-form checks -/

/-- A connected bridge with one registered pending request: the state
reached from `initState` by `start`, one accepted connection at tick 1,
and one `send_command` registration (id 0, slot unresolved). -/
def exampleConnected : BridgeState :=
  { serverBound := true, connected := true, hasWriter := true,
    currentSession := some 0, readTaskAlive := true, nextSession := 1,
    nextReq := 1, pending := [0],
    futures := fun j => if j = 0 then some .waiting else none,
    lastSeen := some 1 }

/-- As `exampleConnected`, but the one pending future already failed with
the disconnect error (the table entry became stale). -/
def exampleDisconnectedSlot : BridgeState :=
  { exampleConnected with
    futures := fun j => if j = 0 then some (.exc .eaDisconnected) else none }

/-! ## Lemmas about the pending table -/

theorem failAll_nil (f : Nat → Option Slot) (e : BridgeExc) : failAll [] f e = f := by
  funext i
  unfold failAll
  match h : f i with
  | some .waiting => simp [List.contains]
  | some (.value m) => simp
  | some (.exc e1) => simp
  | some .cancelled => simp
  | none => simp

theorem failAll_mem (pend : List Nat) (f : Nat → Option Slot) (e : BridgeExc) (i : Nat)
    (hc : pend.contains i = true) (hw : f i = some .waiting) :
    failAll pend f e i = some (.exc e) := by
  unfold failAll
  rw [hw, if_pos hc]

theorem contains_filter_self (l : List Nat) (i : Nat) :
    (l.filter (fun j => j != i)).contains i = false := by
  simp

theorem failAll_done (pend : List Nat) (f : Nat → Option Slot) (e : BridgeExc) (i : Nat)
    (sl : Slot) (hw : f i = some sl) (hn : sl ≠ .waiting) :
    failAll pend f e i = some sl := by
  unfold failAll
  rw [hw]
  cases sl with
  | waiting => exact absurd rfl hn
  | value m => rfl
  | exc e1 => rfl
  | cancelled => rfl

/-! ## Claim theorems -/

/-- C7: whenever the facade is not connected or has no writer,
`send_command` fails at once with ConnectionError("EA not connected") —
the spec's NotConnected error — and the state is returned untouched: no
request id is generated, no pending entry is registered, nothing reaches
the socket. -/
theorem sendCommand_notConnected (s : BridgeState) (w : Bool)
    (h : s.connected = false ∨ s.hasWriter = false) :
    send_begin s w = .failed .eaNotConnected s ∧
    classify .eaNotConnected = some .notConnected := by
  refine ⟨?_, rfl⟩
  unfold send_begin
  rcases h with h | h <;> simp [h]

/-- Closed check of `sendCommand_notConnected` on the initial state. -/
theorem sendCommand_notConnected_witness :
    send_begin initState true = .failed .eaNotConnected initState ∧
    classify .eaNotConnected = some .notConnected :=
  sendCommand_notConnected initState true (Or.inl rfl)

/-- C9: `start()` on a bridge whose listener is not yet bound binds it
(after which inbound connections are accepted and make the facade
connected); calling `start()` again without an intervening `stop()` fails
with the modelled AlreadyStarted error. -/
theorem start_idempotent_once (s : BridgeState) (now : Nat)
    (h : s.serverBound = false) :
    start s = .ok { s with serverBound := true } ∧
    start { s with serverBound := true } = .addrInUse ∧
    (handle_connection now { s with serverBound := true }).connected = true := by
  refine ⟨?_, ?_, ?_⟩
  · unfold start; simp [h]
  · unfold start; simp
  · unfold handle_connection
    by_cases hb : s.hasWriter && s.readTaskAlive <;> simp [hb]

/-- Closed check of `start_idempotent_once` on the initial state. -/
theorem start_idempotent_once_witness :
    start initState = .ok { initState with serverBound := true } ∧
    start { initState with serverBound := true } = .addrInUse ∧
    (handle_connection 0 { initState with serverBound := true }).connected = true :=
  start_idempotent_once initState 0 rfl

/-- C10: on every failure path of `send_command` the pending table holds no
entry for the call's id when the exception reaches the caller: the
NotConnected check fails before an id exists (state unchanged); a
serialization or write failure pops the freshly registered entry; a timeout
pops it; and an exception set on the future while waiting (disconnect or
shutdown) propagates through the handler arm that pops it. -/
theorem sendCommand_failure_atomic :
    (∀ s w, (s.connected = false ∨ s.hasWriter = false) →
      send_begin s w = .failed .eaNotConnected s) ∧
    (∀ s s1, send_begin s false = .failed .writeFailed s1 →
      s1.pending.contains s.nextReq = false) ∧
    (∀ s i, (send_timeout s i).1.pending.contains i = false ∧
      (send_timeout s i).2 = .raised .commandTimedOut) ∧
    (∀ s i e, s.futures i = some (.exc e) →
      (send_finish s i).1.pending.contains i = false ∧
      (send_finish s i).2 = some (.raised e)) := by
  refine ⟨?_, ?_, ?_, ?_⟩
  · intro s w h
    unfold send_begin
    rcases h with h | h <;> simp [h]
  · intro s s1 h
    unfold send_begin at h
    by_cases hc : !s.connected || !s.hasWriter
    · simp [hc] at h
    · rw [if_neg hc, if_neg (by simp)] at h
      cases h
      exact contains_filter_self _ _
  · intro s i
    exact ⟨contains_filter_self _ _, rfl⟩
  · intro s i e h
    unfold send_finish
    rw [h]
    exact ⟨contains_filter_self _ _, rfl⟩

/-- Closed check of `sendCommand_failure_atomic`: the timeout path and the
disconnect-while-waiting path at concrete states. -/
theorem sendCommand_failure_atomic_witness :
    ((send_timeout exampleConnected 0).1.pending.contains 0 = false ∧
      (send_timeout exampleConnected 0).2 = .raised .commandTimedOut) ∧
    ((send_finish exampleDisconnectedSlot 0).1.pending.contains 0 = false ∧
      (send_finish exampleDisconnectedSlot 0).2 = some (.raised .eaDisconnected)) :=
  ⟨sendCommand_failure_atomic.2.2.1 exampleConnected 0,
   sendCommand_failure_atomic.2.2.2 exampleDisconnectedSlot 0 .eaDisconnected rfl⟩

/-- C3: a `send_command` whose result slot is still unresolved at the
deadline raises TimeoutError — the spec's Timeout error — and its id
leaves the pending table; a response arriving afterwards that carries the
very same id is dropped as a no-op: the pending table and every result
slot (the timed-out caller's and all other callers') are unchanged, only
the liveness timestamp moves. -/
theorem sendCommand_timeout_then_late_response
    (s : BridgeState) (i now : Nat) (m : RespMsg)
    (hw : s.futures i = some .waiting) (hm : m.reqId = some i) :
    (send_timeout s i).2 = .raised .commandTimedOut ∧
    classify .commandTimedOut = some .timeout ∧
    (send_timeout s i).1.pending.contains i = false ∧
    (route now (send_timeout s i).1 m).pending = (send_timeout s i).1.pending ∧
    (route now (send_timeout s i).1 m).futures = (send_timeout s i).1.futures := by
  refine ⟨rfl, rfl, contains_filter_self _ _, ?_, ?_⟩ <;>
    simp [route, hm, send_timeout]

/-- Closed check of `sendCommand_timeout_then_late_response` at a concrete
state with one pending request and its late response. -/
theorem sendCommand_timeout_then_late_response_witness :
    (send_timeout exampleConnected 0).2 = .raised .commandTimedOut ∧
    classify .commandTimedOut = some .timeout ∧
    (send_timeout exampleConnected 0).1.pending.contains 0 = false ∧
    (route 2 (send_timeout exampleConnected 0).1 { reqId := some 0 }).pending =
      (send_timeout exampleConnected 0).1.pending ∧
    (route 2 (send_timeout exampleConnected 0).1 { reqId := some 0 }).futures =
      (send_timeout exampleConnected 0).1.futures :=
  sendCommand_timeout_then_late_response exampleConnected 0 2 { reqId := some 0 } rfl rfl

/-- C8: once a send resolves with a response envelope, an `error` field
holding a non-empty string is surfaced to the caller as HTTP 400 carrying
exactly that string (the spec's Remote error); otherwise the envelope
passes through and the route handler hands the caller its `data` value
(with the handler's default when `data` is absent). -/
theorem send_resolution_remote_or_data (m : RespMsg) (dflt : Json) :
    (∀ msg, m.error = some msg → msg ≠ "" → cmd (.ok m) = .http 400 msg) ∧
    ((m.error = none ∨ m.error = some "") →
      cmd (.ok m) = .ok m ∧ dataOf m dflt = m.data.getD dflt) := by
  constructor
  · intro msg he hne
    have hie : msg.isEmpty = false := by
      cases hh : msg.isEmpty
      · rfl
      · exact absurd ((String.isEmpty_iff msg).mp hh) hne
    simp [cmd, truthyErr, he, hie]
  · intro h
    refine ⟨?_, rfl⟩
    rcases h with h | h <;> simp [cmd, truthyErr, h, String.isEmpty_iff]

/-- Closed check of `send_resolution_remote_or_data`: an envelope carrying
an error string becomes HTTP 400 with that string; an error-free envelope
passes through and yields its data. -/
theorem send_resolution_remote_or_data_witness :
    cmd (.ok { reqId := some 0, error := some "no tick" }) = .http 400 "no tick" ∧
    (cmd (.ok { reqId := some 0, data := some (.num 7) }) =
        .ok { reqId := some 0, data := some (.num 7) } ∧
      dataOf { reqId := some 0, data := some (.num 7) } (.obj []) =
        (some (.num 7)).getD (.obj [])) :=
  ⟨(send_resolution_remote_or_data { reqId := some 0, error := some "no tick" } (.obj [])).1
      "no tick" rfl (by decide),
   (send_resolution_remote_or_data { reqId := some 0, data := some (.num 7) } (.obj [])).2
      (Or.inl rfl)⟩

/-- C1: stop, disconnect and timeout leave no entry behind and never
resolve twice.  For any state whose pending entries hold unresolved slots
(which registration establishes and every step preserves): after `stop()`
the table is empty and every previously pending future has been failed
with the shutdown or the disconnect error; after the read loop's
`finally:` block (which runs on disconnect and on every other loop exit)
the table is empty and every previously pending future has been failed
with the disconnect error; and neither path overwrites a slot that is
already resolved. -/
theorem pending_always_resolved (s : BridgeState)
    (h : ∀ i, s.pending.contains i = true → s.futures i = some .waiting) :
    (stop s).pending = [] ∧
    (∀ i, s.pending.contains i = true →
      (stop s).futures i = some (.exc .eaDisconnected) ∨
      (stop s).futures i = some (.exc .bridgeShuttingDown)) ∧
    (readLoopFinalizer s).pending = [] ∧
    (∀ i, s.pending.contains i = true →
      (readLoopFinalizer s).futures i = some (.exc .eaDisconnected)) ∧
    (∀ i sl, s.futures i = some sl → sl ≠ .waiting →
      (stop s).futures i = some sl ∧ (readLoopFinalizer s).futures i = some sl) := by
  have hstopf : ∀ i, (stop s).futures i =
      failAll ((if s.readTaskAlive then readLoopFinalizer s else s).pending)
        ((if s.readTaskAlive then readLoopFinalizer s else s).futures) .bridgeShuttingDown i := by
    intro i
    by_cases hr : s.readTaskAlive <;> simp [stop, hr]
  refine ⟨?_, ?_, rfl, ?_, ?_⟩
  · by_cases hr : s.readTaskAlive <;> simp [stop, hr, readLoopFinalizer]
  · intro i hc
    rw [hstopf i]
    by_cases hr : s.readTaskAlive
    · left
      simp only [hr, if_true]
      have : (readLoopFinalizer s).pending = [] := rfl
      rw [this, failAll_nil]
      exact failAll_mem _ _ _ _ hc (h i hc)
    · right
      simp only [hr, if_false]
      exact failAll_mem _ _ _ _ hc (h i hc)
  · intro i hc
    exact failAll_mem _ _ _ _ hc (h i hc)
  · intro i sl hsl hn
    have hfin : (readLoopFinalizer s).futures i = some sl := failAll_done _ _ _ _ _ hsl hn
    refine ⟨?_, hfin⟩
    rw [hstopf i]
    by_cases hr : s.readTaskAlive
    · simp only [hr, if_true]
      exact failAll_done _ _ _ _ _ hfin hn
    · simp only [hr, if_false]
      exact failAll_done _ _ _ _ _ hsl hn

/-- Closed check of `pending_always_resolved` at a connected state with one
pending unresolved request. -/
theorem pending_always_resolved_witness :
    (stop exampleConnected).pending = [] ∧
    ((stop exampleConnected).futures 0 = some (.exc .eaDisconnected) ∨
      (stop exampleConnected).futures 0 = some (.exc .bridgeShuttingDown)) ∧
    (readLoopFinalizer exampleConnected).pending = [] ∧
    (readLoopFinalizer exampleConnected).futures 0 = some (.exc .eaDisconnected) := by
  have h := pending_always_resolved exampleConnected
    (by intro i hc; cases i with
        | zero => rfl
        | succ k => simp [exampleConnected, List.contains] at hc)
  exact ⟨h.1, h.2.1 0 rfl, h.2.2.1, h.2.2.2.1 0 rfl⟩

theorem failAll_not_mem (pend : List Nat) (f : Nat → Option Slot) (e : BridgeExc) (j : Nat)
    (hc : pend.contains j = false) : failAll pend f e j = f j := by
  unfold failAll
  match h : f j with
  | some .waiting => rw [if_neg (by rw [hc]; exact Bool.false_ne_true)]
  | some (.value m) => rfl
  | some (.exc e1) => rfl
  | some .cancelled => rfl
  | none => rfl

theorem send_begin_connected (s : BridgeState)
    (hc : s.connected = true) (hw : s.hasWriter = true) :
    send_begin s true = .started s.nextReq
      { s with nextReq := s.nextReq + 1,
               pending := s.pending ++ [s.nextReq],
               futures := fun j => if j = s.nextReq then some .waiting else s.futures j } := by
  unfold send_begin
  simp [hc, hw]

theorem sendRun_ids (k : Nat) : ∀ s : BridgeState, s.connected = true → s.hasWriter = true →
    (sendRun k s).1 = List.range' s.nextReq k := by
  induction k with
  | zero => intro s hc hw; rfl
  | succ k ih =>
    intro s hc hw
    have hrec := ih
      { s with
          nextReq := s.nextReq + 1,
          pending := s.pending ++ [s.nextReq],
          futures := fun j => if j = s.nextReq then some Slot.waiting else s.futures j }
      hc hw
    rw [sendRun, send_begin_connected s hc hw]
    dsimp only at hrec ⊢
    rw [hrec, List.range'_succ]

/-- C4 counterexample: with one pending request registered, a frame header
declaring 1,000,001 bytes terminates the read loop, and the pending
caller's future is failed with ConnectionError("EA disconnected") — the
Disconnected error of the spec's taxonomy, not a Protocol error.  This
refutes the claim's parenthetical that pending callers receive a Protocol
error. -/
theorem oversized_frame_not_protocol_counterexample :
    (read_iteration 3 exampleConnected 1000001 none).1.futures 0 =
      some (.exc .eaDisconnected) ∧
    classify .eaDisconnected = some .disconnected ∧
    classify .eaDisconnected ≠ some .protocol :=
  ⟨rfl, rfl, by decide⟩

/-- C4 (amended): a frame whose declared length exceeds 1,000,000 bytes
makes the read loop break without reading the body bytes; the Session is
terminated (the loop's `finally:` marks the facade disconnected, fails
every pending caller with the Disconnected error and empties the table);
the Bridge Facade survives (the listener stays as it was), a subsequently
accepted connection makes the facade connected again, and a new
`send_command` through it registers normally. -/
theorem oversized_frame_teardown (now later n : Nat) (s : BridgeState)
    (b : Option RespMsg) (hn : n > maxFrameLen)
    (h : ∀ i, s.pending.contains i = true → s.futures i = some .waiting) :
    read_iteration now s n b = (readLoopFinalizer s, .oversized, false) ∧
    (readLoopFinalizer s).connected = false ∧
    (readLoopFinalizer s).readTaskAlive = false ∧
    (readLoopFinalizer s).serverBound = s.serverBound ∧
    (readLoopFinalizer s).pending = [] ∧
    (∀ i, s.pending.contains i = true →
      (readLoopFinalizer s).futures i = some (.exc .eaDisconnected)) ∧
    (handle_connection later (readLoopFinalizer s)).connected = true ∧
    (∃ s2, send_begin (handle_connection later (readLoopFinalizer s)) true =
      .started s.nextReq s2 ∧ s2.pending.contains s.nextReq = true) := by
  refine ⟨?_, rfl, rfl, rfl, rfl, ?_, rfl, ?_⟩
  · unfold read_iteration
    rw [if_pos hn]
  · intro i hc
    exact failAll_mem _ _ _ _ hc (h i hc)
  · have hpend : (handle_connection later (readLoopFinalizer s)).pending = [] := by
      simp [handle_connection, readLoopFinalizer]
    have hreq : (handle_connection later (readLoopFinalizer s)).nextReq = s.nextReq := by
      simp [handle_connection, readLoopFinalizer]
    have hsb := send_begin_connected (handle_connection later (readLoopFinalizer s)) rfl rfl
    rw [hreq] at hsb
    refine ⟨_, hsb, ?_⟩
    simp [hpend]

/-- Closed check of `oversized_frame_teardown` at a connected state with
one pending request and an oversized header. -/
theorem oversized_frame_teardown_witness :
    read_iteration 3 exampleConnected 1000001 none =
      (readLoopFinalizer exampleConnected, .oversized, false) ∧
    (readLoopFinalizer exampleConnected).connected = false ∧
    (readLoopFinalizer exampleConnected).pending = [] ∧
    (readLoopFinalizer exampleConnected).futures 0 = some (.exc .eaDisconnected) ∧
    (handle_connection 4 (readLoopFinalizer exampleConnected)).connected = true := by
  have h := oversized_frame_teardown 3 4 1000001 exampleConnected none (by decide)
    (by intro i hc; cases i with
        | zero => rfl
        | succ k => simp [exampleConnected, List.contains] at hc)
  exact ⟨h.1, h.2.1, h.2.2.2.2.1, h.2.2.2.2.2.1 0 rfl, h.2.2.2.2.2.2.1⟩

/-- C5: accepting a new inbound connection while one is current displaces
the old Session completely before the facade is connected to the new one:
the displaced read task has finished and the facade is momentarily
disconnected (its `finally:` block has run) before installation, which
then connects the facade to a fresh session identity never used before;
every future the displacement touched had been registered in the old
table, and the new table starts empty — so a stale Session can neither
resolve nor fail entries registered under its successor, nor mark the
facade disconnected once the successor is current. -/
theorem session_replacement (now : Nat) (s : BridgeState)
    (hw : s.hasWriter = true) (ha : s.readTaskAlive = true)
    (hfresh : ∀ k, s.currentSession = some k → k < s.nextSession) :
    handle_connection now s =
      { readLoopFinalizer s with
          hasWriter := true, connected := true,
          currentSession := some s.nextSession,
          nextSession := s.nextSession + 1,
          readTaskAlive := true, lastSeen := some now } ∧
    (readLoopFinalizer s).connected = false ∧
    (readLoopFinalizer s).readTaskAlive = false ∧
    (handle_connection now s).connected = true ∧
    (handle_connection now s).currentSession = some s.nextSession ∧
    s.currentSession ≠ some s.nextSession ∧
    (handle_connection now s).pending = [] ∧
    (∀ j, s.pending.contains j = false →
      (handle_connection now s).futures j = s.futures j) := by
  refine ⟨?_, rfl, rfl, rfl, rfl, ?_, ?_, ?_⟩
  · unfold handle_connection
    rw [hw, ha]
    rfl
  · intro heq
    exact absurd (hfresh _ heq) (lt_irrefl _)
  · simp [handle_connection, hw, ha, readLoopFinalizer]
  · intro j hj
    have : (handle_connection now s).futures j =
        failAll s.pending s.futures .eaDisconnected j := by
      simp [handle_connection, hw, ha, readLoopFinalizer]
    rw [this]
    exact failAll_not_mem _ _ _ _ hj

/-- Closed check of `session_replacement` at a connected state with one
pending request: the replacement session has a fresh identity and an
untouched slot outside the old table. -/
theorem session_replacement_witness :
    (handle_connection 5 exampleConnected).connected = true ∧
    (handle_connection 5 exampleConnected).currentSession = some 1 ∧
    exampleConnected.currentSession ≠ some 1 ∧
    (handle_connection 5 exampleConnected).pending = [] ∧
    (handle_connection 5 exampleConnected).futures 9 = exampleConnected.futures 9 := by
  have h := session_replacement 5 exampleConnected rfl rfl
    (by intro k hk; cases hk; exact Nat.zero_lt_one)
  exact ⟨h.2.2.2.1, h.2.2.2.2.1, h.2.2.2.2.2.1, h.2.2.2.2.2.2.1, h.2.2.2.2.2.2.2 9 rfl⟩

/-- C2: `N` concurrent `send_command` calls draw pairwise distinct request
ids (their registration sections run one at a time on the event loop, and
the modelled uuid source never repeats a token), and the read loop
resolves a caller's future only from a response envelope carrying exactly
that caller's id: a matching envelope resolves it with that envelope, and
an envelope with any other id (or none) leaves the slot untouched,
whatever order responses arrive in. -/
theorem concurrent_sends_distinct_and_matched (s : BridgeState) (k : Nat)
    (hc : s.connected = true) (hw : s.hasWriter = true) :
    (sendRun k s).1 = List.range' s.nextReq k ∧
    (sendRun k s).1.Nodup ∧
    (∀ now m i, m.reqId = some i → s.pending.contains i = true →
      s.futures i = some .waiting →
      (route now s m).futures i = some (.value m)) ∧
    (∀ now m j, (∀ i, m.reqId = some i → j ≠ i) →
      (route now s m).futures j = s.futures j) := by
  refine ⟨sendRun_ids k s hc hw, ?_, ?_, ?_⟩
  · rw [sendRun_ids k s hc hw]
    exact List.nodup_range' _ _
  · intro now m i hm hpend hwait
    have hmem : i ∈ s.pending := List.mem_of_elem_eq_true hpend
    simp [route, hm, hmem, hwait]
  · intro now m j hne
    unfold route
    match hm : m.reqId with
    | some i =>
      simp only
      by_cases hp : s.pending.contains i = true
      · have hmem : i ∈ s.pending := List.mem_of_elem_eq_true hp
        simp [hmem, hne i hm]
      · have hmem : i ∉ s.pending := fun hm2 => hp (List.elem_eq_true_of_mem hm2)
        simp [hmem]
    | none => rfl

/-- Closed check of `concurrent_sends_distinct_and_matched`: three sends
from a connected state draw ids 1, 2, 3; a response with id 0 resolves the
pending slot 0 and leaves slot 9 alone. -/
theorem concurrent_sends_distinct_and_matched_witness :
    (sendRun 3 exampleConnected).1 = List.range' 1 3 ∧
    (sendRun 3 exampleConnected).1.Nodup ∧
    (route 2 exampleConnected { reqId := some 0 }).futures 0 =
      some (.value { reqId := some 0 }) ∧
    (route 2 exampleConnected { reqId := some 0 }).futures 9 =
      exampleConnected.futures 9 := by
  have h := concurrent_sends_distinct_and_matched exampleConnected 3 rfl rfl
  exact ⟨h.1, h.2.1, h.2.2.1 2 { reqId := some 0 } 0 rfl rfl rfl,
    h.2.2.2 2 { reqId := some 0 } 9 (by intro i hi; cases hi; decide)⟩

/-! ## Character and hexadecimal facts -/

theorem toNat_ofNat_valid (n : Nat) (h : Nat.isValidChar n) : (Char.ofNat n).toNat = n := by
  simp [Char.ofNat, Char.toNat, h, Char.ofNatAux, UInt32.toNat, BitVec.toNat_ofNatLt]

theorem char_valid (c : Char) : Nat.isValidChar c.toNat := c.valid

theorem char_valid_or (c : Char) :
    c.toNat < 55296 ∨ (57343 < c.toNat ∧ c.toNat < 1114112) := c.valid

theorem char_eq_of_toNat {c d : Char} (h : c.toNat = d.toNat) : c = d := by
  rw [← Char.ofNat_toNat c, ← Char.ofNat_toNat d, h]

theorem toNat_ofNat_small (n : Nat) (h : n < 55296) : (Char.ofNat n).toNat = n :=
  toNat_ofNat_valid n (Or.inl h)

theorem hexVal_hexDigitChar : ∀ v < 16, hexVal (hexDigitChar v) = some v := by decide

theorem hexVal4_hex4 (n : Nat) (h : n < 65536) :
    hexVal4 (hexDigitChar (n / 4096 % 16)) (hexDigitChar (n / 256 % 16))
      (hexDigitChar (n / 16 % 16)) (hexDigitChar (n % 16)) = some n := by
  unfold hexVal4
  rw [hexVal_hexDigitChar _ (by omega), hexVal_hexDigitChar _ (by omega),
    hexVal_hexDigitChar _ (by omega), hexVal_hexDigitChar _ (by omega)]
  simp only
  congr 1
  omega

/-! ## String scanning round-trip -/

theorem parseStrAux_lit (fuel : Nat) (c : Char) (tail : List Char)
    (hq : ¬ c = '"') (hb : ¬ c = '\\') :
    parseStrAux (fuel + 1) (c :: tail) =
      (parseStrAux fuel tail).map (fun p => (c :: p.1, p.2)) := by
  simp [parseStrAux, hq, hb]

theorem parseStrAux_short (fuel : Nat) (e c0 : Char) (tail : List Char)
    (hne : ¬ e = 'u') (hu : unescapeShort e = some c0) :
    parseStrAux (fuel + 1) ('\\' :: e :: tail) =
      (parseStrAux fuel tail).map (fun p => (c0 :: p.1, p.2)) := by
  simp [parseStrAux, hne, hu]

theorem parseStrAux_u (fuel : Nat) (h : Nat) (tail : List Char)
    (hlt : h < 65536) (hns : ¬ (55296 ≤ h ∧ h ≤ 56319)) :
    parseStrAux (fuel + 1) ('\\' :: 'u' :: hex4 h ++ tail) =
      (parseStrAux fuel tail).map (fun p => (Char.ofNat h :: p.1, p.2)) := by
  have hs : (decide (55296 ≤ h) && decide (h ≤ 56319)) = false := by
    simp only [Bool.and_eq_false_iff, decide_eq_false_iff_not]
    omega
  simp only [hex4, List.cons_append, List.nil_append]
  simp only [parseStrAux]
  simp [hexVal4_hex4 h hlt, hs]

theorem parseStrAux_pair (fuel : Nat) (hi lo : Nat) (tail : List Char)
    (hhi : 55296 ≤ hi ∧ hi ≤ 56319) (hlo : 56320 ≤ lo ∧ lo ≤ 57343) :
    parseStrAux (fuel + 1) ('\\' :: 'u' :: hex4 hi ++ ('\\' :: 'u' :: hex4 lo ++ tail)) =
      (parseStrAux fuel tail).map
        (fun p => (Char.ofNat (65536 + (hi - 55296) * 1024 + (lo - 56320)) :: p.1, p.2)) := by
  simp only [hex4, List.cons_append, List.nil_append]
  simp only [parseStrAux]
  simp [hexVal4_hex4 hi (by omega), hexVal4_hex4 lo (by omega), hhi.1, hhi.2, hlo.1, hlo.2]



theorem parseStrAux_escapeChar (c : Char) (fuel : Nat) (tail : List Char) :
    parseStrAux (fuel + 1) (escapeChar c ++ tail) =
      (parseStrAux fuel tail).map (fun p => (c :: p.1, p.2)) := by
  unfold escapeChar
  by_cases h1 : c = '"'
  · rw [if_pos h1, h1]
    exact parseStrAux_short fuel _ _ tail (by decide) rfl
  · rw [if_neg h1]
    by_cases h2 : c = '\\'
    · rw [if_pos h2, h2]
      exact parseStrAux_short fuel _ _ tail (by decide) rfl
    · rw [if_neg h2]
      by_cases h3 : c.toNat = 8
      · rw [if_pos h3]
        have hc : c = Char.ofNat 8 := char_eq_of_toNat (by rw [h3, toNat_ofNat_small 8 (by omega)])
        rw [hc]
        exact parseStrAux_short fuel _ _ tail (by decide) rfl
      · rw [if_neg h3]
        by_cases h4 : c.toNat = 9
        · rw [if_pos h4]
          have hc : c = Char.ofNat 9 :=
            char_eq_of_toNat (by rw [h4, toNat_ofNat_small 9 (by omega)])
          rw [hc]
          exact parseStrAux_short fuel _ _ tail (by decide) rfl
        · rw [if_neg h4]
          by_cases h5 : c.toNat = 10
          · rw [if_pos h5]
            have hc : c = Char.ofNat 10 :=
              char_eq_of_toNat (by rw [h5, toNat_ofNat_small 10 (by omega)])
            rw [hc]
            exact parseStrAux_short fuel _ _ tail (by decide) rfl
          · rw [if_neg h5]
            by_cases h6 : c.toNat = 12
            · rw [if_pos h6]
              have hc : c = Char.ofNat 12 :=
                char_eq_of_toNat (by rw [h6, toNat_ofNat_small 12 (by omega)])
              rw [hc]
              exact parseStrAux_short fuel _ _ tail (by decide) rfl
            · rw [if_neg h6]
              by_cases h7 : c.toNat = 13
              · rw [if_pos h7]
                have hc : c = Char.ofNat 13 :=
                  char_eq_of_toNat (by rw [h7, toNat_ofNat_small 13 (by omega)])
                rw [hc]
                exact parseStrAux_short fuel _ _ tail (by decide) rfl
              · rw [if_neg h7]
                by_cases h8 : 32 ≤ c.toNat ∧ c.toNat ≤ 126
                · rw [if_pos h8]
                  exact parseStrAux_lit fuel c tail h1 h2
                · rw [if_neg h8]
                  by_cases h9 : c.toNat < 65536
                  · rw [if_pos h9]
                    have hns : ¬ (55296 ≤ c.toNat ∧ c.toNat ≤ 56319) := by
                      rcases char_valid_or c with hv | hv <;> omega
                    rw [parseStrAux_u fuel c.toNat tail h9 hns, Char.ofNat_toNat]
                  · rw [if_neg h9]
                    have hv := (char_valid_or c).resolve_left (by omega)
                    rw [List.append_assoc]
                    rw [parseStrAux_pair fuel (55296 + (c.toNat - 65536) / 1024)
                      (56320 + (c.toNat - 65536) % 1024) tail (by omega) (by omega)]
                    have hmerge : 65536 + (55296 + (c.toNat - 65536) / 1024 - 55296) * 1024 +
                        (56320 + (c.toNat - 65536) % 1024 - 56320) = c.toNat := by omega
                    rw [hmerge, Char.ofNat_toNat]

/-! ## Number printing round-trip -/

theorem escapeChar_length_pos (c : Char) : 0 < (escapeChar c).length := by
  unfold escapeChar
  repeat' split
  all_goals simp

theorem length_le_flatMap_escape (s : List Char) :
    s.length ≤ (s.flatMap escapeChar).length := by
  induction s with
  | nil => simp
  | cons c t ih =>
    rw [List.flatMap_cons, List.length_append, List.length_cons]
    have := escapeChar_length_pos c
    omega

theorem parseStrAux_escape_list : ∀ (s : List Char) (fuel : Nat) (tail : List Char),
    s.length < fuel →
    parseStrAux fuel (s.flatMap escapeChar ++ '"' :: tail) = some (s, tail) := by
  intro s
  induction s with
  | nil =>
    intro fuel tail h
    match fuel, h with
    | f + 1, _ => simp [parseStrAux]
  | cons c t ih =>
    intro fuel tail h
    match fuel, h with
    | f + 1, h =>
      rw [List.flatMap_cons, List.append_assoc, parseStrAux_escapeChar,
        ih f tail (by simp at h; omega)]
      rfl

theorem parseStringBody_escape (s tail : List Char) :
    parseStringBody (s.flatMap escapeChar ++ '"' :: tail) = some (s, tail) := by
  unfold parseStringBody
  apply parseStrAux_escape_list
  have h := length_le_flatMap_escape s
  rw [List.length_append, List.length_cons]
  omega

theorem isDigitChar_ofNat_digit (n : Nat) (h : n < 10) :
    isDigitChar (Char.ofNat (48 + n)) = true := by
  unfold isDigitChar
  rw [toNat_ofNat_small _ (by omega)]
  simp only [Bool.and_eq_true, decide_eq_true_eq]
  omega

theorem takeDigits_cons (c : Char) (cs : List Char) (acc : Nat) :
    takeDigits (c :: cs) acc =
      if isDigitChar c then takeDigits cs (acc * 10 + (c.toNat - 48)) else (acc, c :: cs) := rfl

theorem takeDigits_stop (rest : List Char) (acc : Nat)
    (h : ∀ c t, rest = c :: t → isDigitChar c = false) :
    takeDigits rest acc = (acc, rest) := by
  cases rest with
  | nil => rfl
  | cons c t =>
    rw [takeDigits_cons, if_neg (by rw [h c t rfl]; exact Bool.false_ne_true)]

theorem takeDigits_natDigitsAux : ∀ (fuel : Nat), ∀ n < fuel, ∀ (acc : Nat) (rest : List Char),
    takeDigits (natDigitsAux fuel n ++ rest) acc =
      takeDigits rest (acc * 10 ^ (natDigitsAux fuel n).length + n) := by
  intro fuel
  induction fuel with
  | zero => intro n h; omega
  | succ f ih =>
    intro n h acc rest
    by_cases h10 : n < 10
    · simp only [natDigitsAux, if_pos h10]
      rw [List.cons_append, List.nil_append, takeDigits_cons,
        if_pos (isDigitChar_ofNat_digit n h10)]
      simp only [List.length_cons, List.length_nil]
      rw [toNat_ofNat_small _ (by omega), pow_one]
      congr 1
      omega
    · simp only [natDigitsAux, if_neg h10]
      rw [List.append_assoc, ih (n / 10) (by omega)]
      rw [List.cons_append, List.nil_append, takeDigits_cons,
        if_pos (isDigitChar_ofNat_digit (n % 10) (by omega))]
      simp only [List.length_append, List.length_cons, List.length_nil]
      rw [toNat_ofNat_small _ (by omega)]
      congr 1
      have h1 : n / 10 * 10 + n % 10 = n := by omega
      calc (acc * 10 ^ (natDigitsAux f (n / 10)).length + n / 10) * 10 + (48 + n % 10 - 48)
          = acc * (10 ^ (natDigitsAux f (n / 10)).length * 10) + (n / 10 * 10 + n % 10) := by
            have h2 : 48 + n % 10 - 48 = n % 10 := by omega
            rw [h2]; ring
        _ = acc * 10 ^ ((natDigitsAux f (n / 10)).length + 0 + 1) + n := by
            rw [h1, pow_succ]

theorem natDigits_head_digit : ∀ (fuel : Nat), ∀ n < fuel,
    ∃ d t, natDigitsAux fuel n = d :: t ∧ isDigitChar d = true := by
  intro fuel
  induction fuel with
  | zero => intro n h; omega
  | succ f ih =>
    intro n h
    by_cases h10 : n < 10
    · refine ⟨Char.ofNat (48 + n), [], ?_, isDigitChar_ofNat_digit n h10⟩
      simp [natDigitsAux, h10]
    · obtain ⟨d, t, hd, hdig⟩ := ih (n / 10) (by omega)
      refine ⟨d, t ++ [Char.ofNat (48 + n % 10)], ?_, hdig⟩
      simp [natDigitsAux, h10, hd]

theorem takeDigits_natDigits (n acc : Nat) (rest : List Char)
    (h : ∀ c t, rest = c :: t → isDigitChar c = false) :
    takeDigits (natDigits n ++ rest) acc =
      (acc * 10 ^ (natDigits n).length + n, rest) := by
  unfold natDigits
  rw [takeDigits_natDigitsAux (n + 1) n (by omega), takeDigits_stop _ _ h]

theorem parseNumber_neg_cons (d : Char) (cs : List Char) :
    parseNumber ('-' :: d :: cs) =
      (if isDigitChar d then
        let p := takeDigits (d :: cs) 0
        some (-(p.1 : Int), p.2)
       else none) := rfl

theorem parseNumber_cons (c : Char) (cs : List Char) (hne : ¬ c = '-') :
    parseNumber (c :: cs) =
      (if isDigitChar c then
        let p := takeDigits (c :: cs) 0
        some ((p.1 : Int), p.2)
       else none) := by
  simp only [parseNumber.eq_def]
  rw [if_neg hne]

theorem parseNumber_serInt (i : Int) (rest : List Char)
    (h : ∀ c t, rest = c :: t → isDigitChar c = false) :
    parseNumber (serInt i ++ rest) = some (i, rest) := by
  unfold serInt
  by_cases hneg : i < 0
  · rw [if_pos hneg]
    obtain ⟨d, t, hd, hdig⟩ := natDigits_head_digit (i.natAbs + 1) i.natAbs (by omega)
    have hd' : natDigits i.natAbs = d :: t := hd
    rw [List.cons_append, hd', List.cons_append]
    rw [parseNumber_neg_cons, if_pos hdig]
    simp only
    rw [← List.cons_append, ← hd', takeDigits_natDigits _ _ _ h]
    simp only [Option.some.injEq, Prod.mk.injEq]
    refine ⟨?_, trivial⟩
    simp only [Nat.zero_mul, Nat.zero_add]
    omega
  · rw [if_neg hneg]
    obtain ⟨d, t, hd, hdig⟩ := natDigits_head_digit (i.natAbs + 1) i.natAbs (by omega)
    have hd' : natDigits i.natAbs = d :: t := hd
    rw [hd', List.cons_append]
    have hdm : ¬ d = '-' := by
      intro he
      rw [he] at hdig
      exact absurd hdig (by decide)
    rw [parseNumber_cons _ _ hdm, if_pos hdig]
    simp only
    rw [← List.cons_append, ← hd', takeDigits_natDigits _ _ _ h]
    simp only [Option.some.injEq, Prod.mk.injEq]
    refine ⟨?_, trivial⟩
    simp only [Nat.zero_mul, Nat.zero_add]
    omega

/-! ## Token heads and whitespace -/

theorem serJson_head (j : Json) : ∃ c t, serJson j = c :: t ∧
    (c = 'n' ∨ c = 't' ∨ c = 'f' ∨ c = '"' ∨ c = '[' ∨ c = '{' ∨ c = '-' ∨
      isDigitChar c = true) := by
  cases j with
  | null => exact ⟨'n', _, rfl, by simp⟩
  | bool b =>
    cases b
    · exact ⟨'f', _, rfl, by simp⟩
    · exact ⟨'t', _, rfl, by simp⟩
  | num n =>
    show ∃ c t, serInt n = c :: t ∧ _
    unfold serInt
    by_cases hneg : n < 0
    · rw [if_pos hneg]
      exact ⟨'-', _, rfl, by simp⟩
    · rw [if_neg hneg]
      obtain ⟨d, t, hd, hdig⟩ := natDigits_head_digit (n.natAbs + 1) n.natAbs (by omega)
      exact ⟨d, t, hd, by tauto⟩
  | str s =>
    refine ⟨'"', s.flatMap escapeChar ++ ['"'], ?_, by simp⟩
    show '"' :: s.flatMap escapeChar ++ ['"'] = _
    rw [List.cons_append]
  | arr l =>
    refine ⟨'[', serElems l ++ [']'], ?_, by simp⟩
    show '[' :: serElems l ++ [']'] = _
    rw [List.cons_append]
  | obj l =>
    refine ⟨'{', serFields l ++ ['}'], ?_, by simp⟩
    show '{' :: serFields l ++ ['}'] = _
    rw [List.cons_append]

theorem isWsChar_false_of_digit (c : Char) (h : isDigitChar c = true) :
    isWsChar c = false := by
  have hn : 48 ≤ c.toNat ∧ c.toNat ≤ 57 := by
    simpa [isDigitChar] using h
  unfold isWsChar
  simp only [Bool.or_eq_false_iff, decide_eq_false_iff_not]
  refine ⟨⟨⟨?_, by omega⟩, by omega⟩, by omega⟩
  intro he
  rw [he] at hn
  revert hn
  decide

theorem skipWs_cons (c : Char) (t : List Char) :
    skipWs (c :: t) = if isWsChar c then skipWs t else c :: t := rfl

theorem skipWs_no_ws (c : Char) (t : List Char) (h : isWsChar c = false) :
    skipWs (c :: t) = c :: t := by
  rw [skipWs_cons, if_neg (by rw [h]; exact Bool.false_ne_true)]

theorem skipWs_serJson (j : Json) (rest : List Char) :
    skipWs (serJson j ++ rest) = serJson j ++ rest := by
  obtain ⟨c, t, hc, hh⟩ := serJson_head j
  rw [hc, List.cons_append]
  apply skipWs_no_ws
  rcases hh with h | h | h | h | h | h | h | h
  · rw [h]; decide
  · rw [h]; decide
  · rw [h]; decide
  · rw [h]; decide
  · rw [h]; decide
  · rw [h]; decide
  · rw [h]; decide
  · exact isWsChar_false_of_digit c h

theorem skipWs_space (t : List Char) : skipWs (' ' :: t) = skipWs t := by
  rw [skipWs_cons, if_pos (by decide)]

/-! ## ASCII output of the serializer -/

theorem hexDigitChar_ascii : ∀ v < 16, (hexDigitChar v).toNat < 128 := by decide

theorem hex4_ascii (n : Nat) : ∀ x ∈ hex4 n, x.toNat < 128 := by
  intro x hx
  simp only [hex4, List.mem_cons, List.not_mem_nil, or_false] at hx
  rcases hx with h | h | h | h <;> rw [h] <;> exact hexDigitChar_ascii _ (by omega)

theorem escapeChar_ascii (c : Char) : ∀ x ∈ escapeChar c, x.toNat < 128 := by
  intro x hx
  unfold escapeChar at hx
  by_cases h1 : c = '"'
  · rw [if_pos h1] at hx
    simp only [List.mem_cons, List.not_mem_nil, or_false] at hx
    rcases hx with h | h <;> rw [h] <;> decide
  · rw [if_neg h1] at hx
    by_cases h2 : c = '\\'
    · rw [if_pos h2] at hx
      simp only [List.mem_cons, List.not_mem_nil, or_false] at hx
      rcases hx with h | h <;> rw [h] <;> decide
    · rw [if_neg h2] at hx
      by_cases h3 : c.toNat = 8
      · rw [if_pos h3] at hx
        simp only [List.mem_cons, List.not_mem_nil, or_false] at hx
        rcases hx with h | h <;> rw [h] <;> decide
      · rw [if_neg h3] at hx
        by_cases h4 : c.toNat = 9
        · rw [if_pos h4] at hx
          simp only [List.mem_cons, List.not_mem_nil, or_false] at hx
          rcases hx with h | h <;> rw [h] <;> decide
        · rw [if_neg h4] at hx
          by_cases h5 : c.toNat = 10
          · rw [if_pos h5] at hx
            simp only [List.mem_cons, List.not_mem_nil, or_false] at hx
            rcases hx with h | h <;> rw [h] <;> decide
          · rw [if_neg h5] at hx
            by_cases h6 : c.toNat = 12
            · rw [if_pos h6] at hx
              simp only [List.mem_cons, List.not_mem_nil, or_false] at hx
              rcases hx with h | h <;> rw [h] <;> decide
            · rw [if_neg h6] at hx
              by_cases h7 : c.toNat = 13
              · rw [if_pos h7] at hx
                simp only [List.mem_cons, List.not_mem_nil, or_false] at hx
                rcases hx with h | h <;> rw [h] <;> decide
              · rw [if_neg h7] at hx
                by_cases h8 : 32 ≤ c.toNat ∧ c.toNat ≤ 126
                · rw [if_pos h8] at hx
                  simp only [List.mem_cons, List.not_mem_nil, or_false] at hx
                  rw [hx]
                  omega
                · rw [if_neg h8] at hx
                  by_cases h9 : c.toNat < 65536
                  · rw [if_pos h9] at hx
                    simp only [List.mem_cons] at hx
                    rcases hx with h | h | h
                    · rw [h]; decide
                    · rw [h]; decide
                    · exact hex4_ascii _ _ h
                  · rw [if_neg h9] at hx
                    simp only [List.mem_append, List.mem_cons] at hx
                    rcases hx with (h | h | h) | (h | h | h) <;>
                      first
                        | (rw [h]; decide)
                        | exact hex4_ascii _ _ h

theorem natDigitsAux_ascii : ∀ fuel n, ∀ x ∈ natDigitsAux fuel n, x.toNat < 128 := by
  intro fuel
  induction fuel with
  | zero => intro n x hx; cases hx
  | succ f ih =>
    intro n x hx
    by_cases h10 : n < 10
    · simp only [natDigitsAux, if_pos h10, List.mem_cons, List.not_mem_nil, or_false] at hx
      rw [hx, toNat_ofNat_small _ (by omega)]
      omega
    · simp only [natDigitsAux, if_neg h10, List.mem_append, List.mem_cons,
        List.not_mem_nil, or_false] at hx
      rcases hx with h | h
      · exact ih _ _ h
      · rw [h, toNat_ofNat_small _ (by omega)]
        omega

theorem serInt_ascii (i : Int) : ∀ x ∈ serInt i, x.toNat < 128 := by
  intro x hx
  unfold serInt at hx
  by_cases hneg : i < 0
  · rw [if_pos hneg] at hx
    rcases List.mem_cons.mp hx with h | h
    · rw [h]; decide
    · exact natDigitsAux_ascii _ _ _ h
  · rw [if_neg hneg] at hx
    exact natDigitsAux_ascii _ _ _ hx

theorem serString_ascii (s : List Char) : ∀ x ∈ serString s, x.toNat < 128 := by
  intro x hx
  unfold serString at hx
  simp only [List.cons_append, List.mem_cons, List.mem_append,
    List.not_mem_nil, or_false] at hx
  rcases hx with h | h | h
  · rw [h]; decide
  · rw [List.mem_flatMap] at h
    obtain ⟨c, _, hc⟩ := h
    exact escapeChar_ascii c x hc
  · rw [h]; decide

mutual

theorem serJson_ascii : ∀ (j : Json), ∀ x ∈ serJson j, x.toNat < 128
  | .null => by
    intro x hx
    simp only [serJson, List.mem_cons, List.not_mem_nil, or_false] at hx
    rcases hx with h | h | h | h <;> rw [h] <;> decide
  | .bool true => by
    intro x hx
    simp only [serJson, if_true, List.mem_cons, List.not_mem_nil, or_false] at hx
    rcases hx with h | h | h | h <;> rw [h] <;> decide
  | .bool false => by
    intro x hx
    simp only [serJson, Bool.false_eq_true, if_false, List.mem_cons,
      List.not_mem_nil, or_false] at hx
    rcases hx with h | h | h | h | h <;> rw [h] <;> decide
  | .num n => by
    intro x hx
    simp only [serJson] at hx
    exact serInt_ascii n x hx
  | .str s => by
    intro x hx
    simp only [serJson] at hx
    exact serString_ascii s x hx
  | .arr l => by
    intro x hx
    simp only [serJson, List.cons_append, List.mem_cons, List.mem_append,
      List.not_mem_nil, or_false] at hx
    rcases hx with h | h | h
    · rw [h]; decide
    · exact serElems_ascii l x h
    · rw [h]; decide
  | .obj l => by
    intro x hx
    simp only [serJson, List.cons_append, List.mem_cons, List.mem_append,
      List.not_mem_nil, or_false] at hx
    rcases hx with h | h | h
    · rw [h]; decide
    · exact serFields_ascii l x h
    · rw [h]; decide

theorem serElems_ascii : ∀ (l : List Json), ∀ x ∈ serElems l, x.toNat < 128
  | [] => by intro x hx; simp only [serElems] at hx; cases hx
  | [j] => by
    intro x hx
    simp only [serElems] at hx
    exact serJson_ascii j x hx
  | j :: j2 :: xs => by
    intro x hx
    simp only [serElems, List.mem_append, List.mem_cons] at hx
    rcases hx with h | h | h | h
    · exact serJson_ascii j x h
    · rw [h]; decide
    · rw [h]; decide
    · exact serElems_ascii (j2 :: xs) x h

theorem serFields_ascii : ∀ (l : List (List Char × Json)), ∀ x ∈ serFields l, x.toNat < 128
  | [] => by intro x hx; simp only [serFields] at hx; cases hx
  | [(k, v)] => by
    intro x hx
    simp only [serFields, List.mem_append, List.mem_cons] at hx
    rcases hx with h | h | h | h
    · exact serString_ascii k x h
    · rw [h]; decide
    · rw [h]; decide
    · exact serJson_ascii v x h
  | (k, v) :: f :: xs => by
    intro x hx
    simp only [serFields, List.mem_append, List.mem_cons] at hx
    rcases hx with (h | h | h | h) | h | h | h
    · exact serString_ascii k x h
    · rw [h]; decide
    · rw [h]; decide
    · exact serJson_ascii v x h
    · rw [h]; decide
    · rw [h]; decide
    · exact serFields_ascii (f :: xs) x h

end

/-! ## Size bound for the parser fuel -/

theorem natDigits_ne_nil (n : Nat) : natDigits n ≠ [] := by
  obtain ⟨d, t, hd, _⟩ := natDigits_head_digit (n + 1) n (by omega)
  unfold natDigits
  rw [hd]
  exact List.cons_ne_nil d t

theorem serInt_length_pos (i : Int) : 0 < (serInt i).length := by
  unfold serInt
  by_cases hneg : i < 0
  · rw [if_pos hneg]; simp
  · rw [if_neg hneg]
    have := natDigits_ne_nil i.natAbs
    cases h : natDigits i.natAbs with
    | nil => exact absurd h this
    | cons d t => simp [h]

mutual

theorem sizeJ_le_len : ∀ (j : Json), sizeJ j ≤ (serJson j).length
  | .null => by simp [sizeJ, serJson]
  | .bool true => by simp [sizeJ, serJson]
  | .bool false => by simp [sizeJ, serJson]
  | .num n => by
    simp only [sizeJ, serJson]
    exact serInt_length_pos n
  | .str s => by simp [sizeJ, serJson, serString]
  | .arr l => by
    have h := sizeL_le_len l
    simp only [sizeJ, serJson, List.cons_append, List.length_cons, List.length_append,
      List.length_nil]
    omega
  | .obj l => by
    have h := sizeF_le_len l
    simp only [sizeJ, serJson, List.cons_append, List.length_cons, List.length_append,
      List.length_nil]
    omega

theorem sizeL_le_len : ∀ (l : List Json), sizeL l ≤ (serElems l).length + 1
  | [] => by simp [sizeL, serElems]
  | [j] => by
    have h := sizeJ_le_len j
    have e1 : sizeL [j] = sizeJ j + 0 + 1 := rfl
    have e2 : serElems [j] = serJson j := rfl
    rw [e1, e2]
    omega
  | j :: j2 :: xs => by
    have h1 := sizeJ_le_len j
    have h2 := sizeL_le_len (j2 :: xs)
    have e1 : sizeL (j :: j2 :: xs) = sizeJ j + sizeL (j2 :: xs) + 1 := rfl
    have e2 : serElems (j :: j2 :: xs) = serJson j ++ ',' :: ' ' :: serElems (j2 :: xs) := rfl
    rw [e1, e2, List.length_append]
    simp only [List.length_cons]
    omega

theorem sizeF_le_len : ∀ (l : List (List Char × Json)), sizeF l ≤ (serFields l).length + 1
  | [] => by simp [sizeF, serFields]
  | [(k, v)] => by
    have h := sizeJ_le_len v
    have e1 : sizeF [(k, v)] = sizeJ v + 0 + 1 := rfl
    have e2 : serFields [(k, v)] = serString k ++ ':' :: ' ' :: serJson v := rfl
    rw [e1, e2, List.length_append]
    simp only [List.length_cons]
    omega
  | (k, v) :: f :: xs => by
    have h1 := sizeJ_le_len v
    have h2 := sizeF_le_len (f :: xs)
    have e1 : sizeF ((k, v) :: f :: xs) = sizeJ v + sizeF (f :: xs) + 1 := rfl
    have e2 : serFields ((k, v) :: f :: xs) =
        serString k ++ ':' :: ' ' :: serJson v ++ ',' :: ' ' :: serFields (f :: xs) := rfl
    rw [e1, e2, List.length_append]
    simp only [List.length_cons, List.length_append]
    omega

end

/-! ## Frame and byte-level facts -/

theorem unpack_pack (n : Nat) (rest : List Nat) (h : n < 4294967296) :
    unpack_be32 (pack_be32 n ++ rest) = some (n, rest) := by
  simp only [pack_be32, List.cons_append, List.nil_append, unpack_be32]
  congr 1
  congr 1
  omega

theorem decodeAscii_jsonBody (j : Json) : decodeAscii (jsonBody j) = some (serJson j) := by
  unfold decodeAscii jsonBody
  rw [if_pos ?hall]
  case hall =>
    rw [List.all_eq_true]
    intro b hb
    rw [List.mem_map] at hb
    obtain ⟨c, hc, hbc⟩ := hb
    have := serJson_ascii j c hc
    simp only [decide_eq_true_eq]
    omega
  rw [List.map_map]
  congr 1
  have : ∀ c ∈ serJson j, (Char.ofNat ∘ Char.toNat) c = id c := by
    intro c _
    simp [Char.ofNat_toNat]
  rw [List.map_congr_left this, List.map_id]

/-! ## Parser reductions -/

theorem parseValue_congr_skipWs (f : Nat) (x y : List Char) (h : skipWs x = skipWs y) :
    parseValue (f + 1) x = parseValue (f + 1) y := by
  rw [parseValue.eq_def, parseValue.eq_def]
  simp only
  rw [h]

theorem parseValue_space (f : Nat) (z : List Char) :
    parseValue (f + 1) (' ' :: z) = parseValue (f + 1) z :=
  parseValue_congr_skipWs f _ _ (skipWs_space z)

theorem digit_ne (c d : Char) (h : isDigitChar c = true) (hd : isDigitChar d = false) :
    ¬ c = d := by
  intro he
  rw [he] at h
  rw [h] at hd
  cases hd

theorem sizeJ_pos (j : Json) : 1 ≤ sizeJ j := by
  cases j <;> simp [sizeJ]

theorem head_props (c : Char)
    (hh : c = 'n' ∨ c = 't' ∨ c = 'f' ∨ c = '"' ∨ c = '[' ∨ c = '{' ∨ c = '-' ∨
      isDigitChar c = true) :
    isWsChar c = false ∧ ¬ c = ']' ∧ ¬ c = '}' := by
  rcases hh with h | h | h | h | h | h | h | h
  · rw [h]; exact ⟨by decide, by decide, by decide⟩
  · rw [h]; exact ⟨by decide, by decide, by decide⟩
  · rw [h]; exact ⟨by decide, by decide, by decide⟩
  · rw [h]; exact ⟨by decide, by decide, by decide⟩
  · rw [h]; exact ⟨by decide, by decide, by decide⟩
  · rw [h]; exact ⟨by decide, by decide, by decide⟩
  · rw [h]; exact ⟨by decide, by decide, by decide⟩
  · exact ⟨isWsChar_false_of_digit c h, digit_ne c ']' h (by decide),
      digit_ne c '}' h (by decide)⟩

theorem isDelim_not_digit (rest : List Char) (hd : isDelim rest = true) :
    ∀ c t, rest = c :: t → isDigitChar c = false := by
  intro c t h
  subst h
  simp only [isDelim, Bool.or_eq_true, decide_eq_true_eq] at hd
  rcases hd with (h | h) | h <;> rw [h] <;> decide

theorem skipWs_serString (k : List Char) (z : List Char) :
    skipWs (serString k ++ z) = serString k ++ z := by
  have e : serString k ++ z = '"' :: (k.flatMap escapeChar ++ '"' :: z) := by
    simp [serString]
  rw [e]
  exact skipWs_no_ws _ _ (by decide)

theorem skipWs_serElems (x : Json) (xs : List Json) (z : List Char) :
    skipWs (serElems (x :: xs) ++ z) = serElems (x :: xs) ++ z := by
  cases xs with
  | nil => exact skipWs_serJson x z
  | cons y ys =>
    show skipWs ((serJson x ++ ',' :: ' ' :: serElems (y :: ys)) ++ z) = _
    rw [List.append_assoc, skipWs_serJson x _]
    rw [show serElems (x :: y :: ys) = serJson x ++ ',' :: ' ' :: serElems (y :: ys) from rfl,
      List.append_assoc]

theorem skipWs_serFields (kv : List Char × Json) (xs : List (List Char × Json))
    (z : List Char) :
    skipWs (serFields (kv :: xs) ++ z) = serFields (kv :: xs) ++ z := by
  obtain ⟨k, v⟩ := kv
  cases xs with
  | nil =>
    show skipWs ((serString k ++ ':' :: ' ' :: serJson v) ++ z) = _
    rw [List.append_assoc, skipWs_serString k _]
    simp [serFields]
  | cons g gs =>
    show skipWs ((serString k ++ ':' :: ' ' :: serJson v ++ ',' :: ' ' :: serFields (g :: gs)) ++ z) = _
    rw [List.append_assoc, List.append_assoc, skipWs_serString k _]
    rw [show serFields ((k, v) :: g :: gs) =
        serString k ++ ':' :: ' ' :: serJson v ++ ',' :: ' ' :: serFields (g :: gs) from rfl]
    simp

theorem parseValue_number (f : Nat) (c : Char) (cs : List Char)
    (h1 : ¬ c = 'n') (h2 : ¬ c = 't') (h3 : ¬ c = 'f') (h4 : ¬ c = '"')
    (h5 : ¬ c = '[') (h6 : ¬ c = '{') (h7 : isWsChar c = false) :
    parseValue (f + 1) (c :: cs) =
      (parseNumber (c :: cs)).map (fun p => (Json.num p.1, p.2)) := by
  simp [parseValue, skipWs_cons, h1, h2, h3, h4, h5, h6, h7]

theorem parseValue_lbracket (f : Nat) (cs : List Char) :
    parseValue (f + 1) ('[' :: cs) =
      (match skipWs cs with
       | ']' :: rest => some (.arr [], rest)
       | cs2 => (parseElems f cs2).map (fun p => (.arr p.1, p.2))) := by
  simp [parseValue, skipWs_cons, isWsChar]

theorem parseValue_lbrace (f : Nat) (cs : List Char) :
    parseValue (f + 1) ('{' :: cs) =
      (match skipWs cs with
       | '}' :: rest => some (.obj [], rest)
       | cs2 => (parseFields f cs2).map (fun p => (.obj p.1, p.2))) := by
  simp [parseValue, skipWs_cons, isWsChar]

theorem serElems_cons_head (x : Json) (xs : List Json) (z : List Char)
    (c0 : Char) (t0 : List Char) (h : serJson x = c0 :: t0) :
    ∃ T, serElems (x :: xs) ++ z = c0 :: T := by
  cases xs with
  | nil =>
    refine ⟨t0 ++ z, ?_⟩
    show serJson x ++ z = _
    rw [h, List.cons_append]
  | cons y ys =>
    refine ⟨t0 ++ ((',' :: ' ' :: serElems (y :: ys)) ++ z), ?_⟩
    show (serJson x ++ ',' :: ' ' :: serElems (y :: ys)) ++ z = _
    rw [List.append_assoc, h, List.cons_append]

theorem serFields_cons_head (k : List Char) (v : Json) (xs : List (List Char × Json))
    (z : List Char) :
    ∃ T, serFields ((k, v) :: xs) ++ z = '"' :: T := by
  cases xs with
  | nil =>
    refine ⟨k.flatMap escapeChar ++ ['"'] ++ ((':' :: ' ' :: serJson v) ++ z), ?_⟩
    show (serString k ++ ':' :: ' ' :: serJson v) ++ z = _
    rw [List.append_assoc]
    simp [serString]
  | cons g gs =>
    refine ⟨k.flatMap escapeChar ++ ['"'] ++
      ((':' :: ' ' :: serJson v ++ ',' :: ' ' :: serFields (g :: gs)) ++ z), ?_⟩
    show (serString k ++ ':' :: ' ' :: serJson v ++ ',' :: ' ' :: serFields (g :: gs)) ++ z = _
    rw [List.append_assoc, List.append_assoc]
    simp [serString]

/-! ## The parser reads back what the serializer wrote -/

theorem parse_ser : ∀ (fuel : Nat),
    (∀ (j : Json) (rest : List Char), sizeJ j ≤ fuel → isDelim rest = true →
      parseValue fuel (serJson j ++ rest) = some (j, rest)) ∧
    (∀ (l : List Json) (rest : List Char), l ≠ [] → sizeL l ≤ fuel →
      parseElems fuel (serElems l ++ ']' :: rest) = some (l, rest)) ∧
    (∀ (fl : List (List Char × Json)) (rest : List Char), fl ≠ [] → sizeF fl ≤ fuel →
      parseFields fuel (serFields fl ++ '}' :: rest) = some (fl, rest)) := by
  intro fuel
  induction fuel with
  | zero =>
    refine ⟨?_, ?_, ?_⟩
    · intro j rest hs _
      have := sizeJ_pos j
      omega
    · intro l rest hl hs
      cases l with
      | nil => exact absurd rfl hl
      | cons x xs =>
        have := sizeJ_pos x
        have e : sizeL (x :: xs) = sizeJ x + sizeL xs + 1 := rfl
        omega
    · intro fl rest hl hs
      cases fl with
      | nil => exact absurd rfl hl
      | cons kv xs =>
        have := sizeJ_pos kv.2
        have e : sizeF (kv :: xs) = sizeJ kv.2 + sizeF xs + 1 := rfl
        omega
  | succ f ih =>
    obtain ⟨ihJ, ihL, ihF⟩ := ih
    refine ⟨?_, ?_, ?_⟩
    · -- one serialized value followed by a delimiter
      intro j rest hs hdelim
      cases j with
      | null =>
        show parseValue (f + 1) ('n' :: 'u' :: 'l' :: 'l' :: rest) = some (.null, rest)
        simp [parseValue, skipWs_cons, isWsChar]
      | bool b =>
        cases b
        · show parseValue (f + 1) ('f' :: 'a' :: 'l' :: 's' :: 'e' :: rest) =
            some (.bool false, rest)
          simp [parseValue, skipWs_cons, isWsChar]
        · show parseValue (f + 1) ('t' :: 'r' :: 'u' :: 'e' :: rest) = some (.bool true, rest)
          simp [parseValue, skipWs_cons, isWsChar]
      | num n =>
        have hnd := isDelim_not_digit rest hdelim
        have hnum := parseNumber_serInt n rest hnd
        show parseValue (f + 1) (serInt n ++ rest) = some (.num n, rest)
        by_cases hneg : n < 0
        · have hshape : serInt n ++ rest = '-' :: (natDigits n.natAbs ++ rest) := by
            simp [serInt, if_pos hneg]
          rw [hshape, parseValue_number f '-' _ (by decide) (by decide) (by decide) (by decide)
            (by decide) (by decide) (by decide), ← hshape, hnum]
          rfl
        · obtain ⟨d, t, hdt, hdig⟩ := natDigits_head_digit (n.natAbs + 1) n.natAbs (by omega)
          have hdt' : natDigits n.natAbs = d :: t := hdt
          have hshape : serInt n ++ rest = d :: (t ++ rest) := by
            simp [serInt, if_neg hneg, hdt']
          rw [hshape, parseValue_number f d _
            (digit_ne d 'n' hdig (by decide)) (digit_ne d 't' hdig (by decide))
            (digit_ne d 'f' hdig (by decide)) (digit_ne d '"' hdig (by decide))
            (digit_ne d '[' hdig (by decide)) (digit_ne d '{' hdig (by decide))
            (isWsChar_false_of_digit d hdig), ← hshape, hnum]
          rfl
      | str s =>
        have hshape : serString s ++ rest = '"' :: (s.flatMap escapeChar ++ '"' :: rest) := by
          simp [serString]
        show parseValue (f + 1) (serString s ++ rest) = some (.str s, rest)
        rw [hshape]
        simp [parseValue, skipWs_cons, isWsChar, parseStringBody_escape]
      | arr l =>
        cases l with
        | nil =>
          show parseValue (f + 1) ('[' :: ']' :: rest) = some (.arr [], rest)
          rw [parseValue_lbracket, skipWs_no_ws ']' rest (by decide)]
          simp only []
        | cons x xs =>
          have hshape : serJson (.arr (x :: xs)) ++ rest =
              '[' :: (serElems (x :: xs) ++ ']' :: rest) := by
            show ('[' :: serElems (x :: xs) ++ [']']) ++ rest = _
            simp
          rw [hshape, parseValue_lbracket, skipWs_serElems]
          have hsize : sizeL (x :: xs) ≤ f := by
            have e : sizeJ (.arr (x :: xs)) = sizeL (x :: xs) + 1 := rfl
            omega
          have helems := ihL (x :: xs) rest (List.cons_ne_nil x xs) hsize
          obtain ⟨c0, t0, hc0, hh⟩ := serJson_head x
          obtain ⟨hws, hnb, hnbr⟩ := head_props c0 hh
          obtain ⟨T, hT⟩ := serElems_cons_head x xs (']' :: rest) c0 t0 hc0
          split
          · rename_i r2 heq
            rw [hT] at heq
            exact absurd (List.head_eq_of_cons_eq heq) hnb
          · rw [helems]
            rfl
      | obj l =>
        cases l with
        | nil =>
          show parseValue (f + 1) ('{' :: '}' :: rest) = some (.obj [], rest)
          rw [parseValue_lbrace, skipWs_no_ws '}' rest (by decide)]
          simp only []
        | cons kv xs =>
          obtain ⟨k, v⟩ := kv
          have hshape : serJson (.obj ((k, v) :: xs)) ++ rest =
              '{' :: (serFields ((k, v) :: xs) ++ '}' :: rest) := by
            show ('{' :: serFields ((k, v) :: xs) ++ ['}']) ++ rest = _
            simp
          rw [hshape, parseValue_lbrace, skipWs_serFields]
          have hsize : sizeF ((k, v) :: xs) ≤ f := by
            have e : sizeJ (.obj ((k, v) :: xs)) = sizeF ((k, v) :: xs) + 1 := rfl
            omega
          have hfields := ihF ((k, v) :: xs) rest (List.cons_ne_nil (k, v) xs) hsize
          obtain ⟨T, hT⟩ := serFields_cons_head k v xs ('}' :: rest)
          split
          · rename_i r2 heq
            rw [hT] at heq
            exact absurd (List.head_eq_of_cons_eq heq) (by decide)
          · rw [hfields]
            rfl
    · -- the elements of a non-empty array
      intro l rest hl hs
      cases l with
      | nil => exact absurd rfl hl
      | cons x xs =>
        have e : sizeL (x :: xs) = sizeJ x + sizeL xs + 1 := rfl
        cases xs with
        | nil =>
          show parseElems (f + 1) (serJson x ++ ']' :: rest) = some ([x], rest)
          simp only [parseElems]
          rw [ihJ x (']' :: rest) (by omega) (by simp [isDelim])]
          simp only []
          rw [skipWs_no_ws ']' rest (by decide)]
          simp only []
        | cons y ys =>
          show parseElems (f + 1)
            ((serJson x ++ ',' :: ' ' :: serElems (y :: ys)) ++ ']' :: rest) =
            some (x :: y :: ys, rest)
          rw [List.append_assoc]
          simp only [parseElems]
          have e2 : sizeL (y :: ys) = sizeJ y + sizeL ys + 1 := rfl
          rw [ihJ x ((',' :: ' ' :: serElems (y :: ys)) ++ ']' :: rest) (by omega)
            (by simp [isDelim])]
          simp only []
          simp only [List.cons_append]
          rw [skipWs_no_ws ',' _ (by decide)]
          simp only []
          rw [skipWs_space, skipWs_serElems]
          rw [ihL (y :: ys) rest (List.cons_ne_nil y ys) (by omega)]
          rfl
    · -- the members of a non-empty object
      intro fl rest hl hs
      cases fl with
      | nil => exact absurd rfl hl
      | cons kv xs =>
        obtain ⟨k, v⟩ := kv
        have e : sizeF ((k, v) :: xs) = sizeJ v + sizeF xs + 1 := rfl
        have hv1 := sizeJ_pos v
        cases xs with
        | nil =>
          show parseFields (f + 1) ((serString k ++ ':' :: ' ' :: serJson v) ++ '}' :: rest) =
            some ([(k, v)], rest)
          rw [List.append_assoc]
          simp only [parseFields]
          obtain ⟨f2, rfl⟩ : ∃ f2, f = f2 + 1 := ⟨f - 1, by omega⟩
          rw [skipWs_serString]
          have hserstr : serString k ++ ((':' :: ' ' :: serJson v) ++ '}' :: rest) =
              '"' :: (k.flatMap escapeChar ++ '"' ::
                ((':' :: ' ' :: serJson v) ++ '}' :: rest)) := by
            simp [serString]
          rw [hserstr]
          simp only []
          rw [parseStringBody_escape]
          simp only []
          simp only [List.cons_append]
          rw [skipWs_no_ws ':' _ (by decide)]
          simp only []
          rw [parseValue_space, ihJ v ('}' :: rest) (by omega) (by simp [isDelim])]
          simp only []
          rw [skipWs_no_ws '}' rest (by decide)]
          simp only []
        | cons g gs =>
          show parseFields (f + 1)
            ((serString k ++ ':' :: ' ' :: serJson v ++ ',' :: ' ' :: serFields (g :: gs)) ++
              '}' :: rest) = some ((k, v) :: g :: gs, rest)
          rw [List.append_assoc, List.append_assoc]
          simp only [parseFields]
          obtain ⟨f2, rfl⟩ : ∃ f2, f = f2 + 1 := ⟨f - 1, by omega⟩
          rw [skipWs_serString]
          have hserstr : serString k ++ ((':' :: ' ' :: serJson v) ++
              ((',' :: ' ' :: serFields (g :: gs)) ++ '}' :: rest)) =
              '"' :: (k.flatMap escapeChar ++ '"' :: ((':' :: ' ' :: serJson v) ++
                ((',' :: ' ' :: serFields (g :: gs)) ++ '}' :: rest))) := by
            simp [serString]
          rw [hserstr]
          simp only []
          rw [parseStringBody_escape]
          simp only []
          simp only [List.cons_append]
          rw [skipWs_no_ws ':' _ (by decide)]
          simp only []
          have hg1 := sizeJ_pos g.2
          have e2 : sizeF (g :: gs) = sizeJ g.2 + sizeF gs + 1 := rfl
          rw [parseValue_space,
            ihJ v (',' :: ' ' :: (serFields (g :: gs) ++ '}' :: rest)) (by omega)
              (by simp [isDelim])]
          simp only []
          rw [skipWs_no_ws ',' _ (by decide)]
          simp only []
          rw [skipWs_space, skipWs_serFields]
          rw [ihF (g :: gs) rest (List.cons_ne_nil g gs) (by omega)]
          rfl

/-! ## The frame codec round trip -/

theorem jsonBody_length (e : Json) : (jsonBody e).length = (serJson e).length := by
  simp [jsonBody]

/-- C6: for every envelope value, `encode` produces the 4-byte unsigned
big-endian length prefix followed by the UTF-8 JSON serialization of the
envelope, and `decode` — reading the 4-byte header, applying the read
loop's limit, reading exactly that many body bytes and parsing them as one
JSON document — returns the envelope itself.  The hypothesis is the frame
fitting under the read loop's 1 MB sanity limit, without which the
receiving side rejects the frame by design. -/
theorem decode_encode_roundtrip (e : Json) (h : (serJson e).length ≤ maxFrameLen) :
    encode e = pack_be32 (jsonBody e).length ++ jsonBody e ∧
    decode (encode e) = some e := by
  refine ⟨rfl, ?_⟩
  unfold encode decode
  rw [unpack_pack _ _ (by rw [jsonBody_length]; unfold maxFrameLen at h; omega)]
  simp only []
  rw [if_neg (by rw [jsonBody_length]; omega)]
  rw [if_neg (by omega)]
  rw [List.take_length, decodeAscii_jsonBody]
  simp only []
  have hp : parseValue ((serJson e).length + 1) (serJson e ++ []) = some (e, []) :=
    (parse_ser _).1 e [] (by have := sizeJ_le_len e; omega) rfl
  rw [List.append_nil] at hp
  rw [hp]
  simp only []
  rfl

/-- Closed check of `decode_encode_roundtrip` on the spec's scenario
envelope (a response with an id and a balance), with the size hypothesis
evaluated. -/
theorem decode_encode_roundtrip_witness :
    decode (encode (Json.obj
      [(['i', 'd'], .str ['a', 'b', 'c']),
       (['d', 'a', 't', 'a'],
        Json.obj [(['b', 'a', 'l', 'a', 'n', 'c', 'e'], .num 1000)])])) =
    some (Json.obj
      [(['i', 'd'], .str ['a', 'b', 'c']),
       (['d', 'a', 't', 'a'],
        Json.obj [(['b', 'a', 'l', 'a', 'n', 'c', 'e'], .num 1000)])]) :=
  (decode_encode_roundtrip _ (by decide)).2

end Mt5Bridge
